import Mathlib

/-!
Verification of the stateful dispatch layer of a JSON-RPC 2.0
WebSocket server (`ws-server` crate): the raw dispatcher
(`src/raw/core.rs`, `RawServer` and friends) and the registered-handler
front-end (`src/server.rs`, `Server`).

The Rust data structures are embedded shallowly:

* `HashMap` / `HashSet` become association lists / lists, with a
  `Nodup`-keys well-formedness predicate where the proofs need it;
* `[u8; 32]` subscription identifiers become `List Nat` (byte lists);
* the transport collaborator is represented by the list of actions
  (`send` / `finish`) an operation performs;
* a Rust `panic!` / `.unwrap()` failure is an `Option.none` result.
-/

/-- Minimal JSON value type standing in for `jsonrpc::JsonValue`. -/
inductive JsonV
  | null
  | bool (b : Bool)
  | num (n : Int)
  | str (s : String)
  | arr (xs : List JsonV)
  | obj (fields : List (String × JsonV))

/-- Error type of the front-end registration functions
(`jsonrpsee_types::error::Error`, restricted to the variant the
registration paths produce). -/
inductive RegError
  | MethodAlreadyRegistered (name : String)
deriving DecidableEq

/-- `Server::register_method` (src/server.rs lines 213-226): inserting
the name into the mutex-guarded `registered_methods` set; if it is
already present, return `MethodAlreadyRegistered` and leave the set
unchanged.  The returned list is the state of the set afterwards. -/
def register_method (regs : List String) (method_name : String) :
    Option RegError × List String :=
  if method_name ∈ regs then
    (some (RegError.MethodAlreadyRegistered method_name), regs)
  else
    (none, method_name :: regs)

/-- `Server::register_subscription` (src/server.rs lines 234-252):
insert the subscribe name; on failure return the error with the set
unchanged.  Then insert the unsubscribe name into the *updated* set; on
failure roll back the subscribe-name insertion
(`registered_methods.remove(&subscribe_method_name)`) and return the
error. -/
def register_subscription (regs : List String)
    (subscribe_method_name unsubscribe_method_name : String) :
    Option RegError × List String :=
  if subscribe_method_name ∈ regs then
    (some (RegError.MethodAlreadyRegistered subscribe_method_name), regs)
  else
    let regs1 := subscribe_method_name :: regs
    if unsubscribe_method_name ∈ regs1 then
      (some (RegError.MethodAlreadyRegistered unsubscribe_method_name),
        regs1.filter (fun m => m ≠ subscribe_method_name))
    else
      (none, unsubscribe_method_name :: regs1)

/-! ## Association-list maps

`hashbrown::HashMap` is embedded as an association list whose keys are
`Nodup` (a hash map holds at most one entry per key). -/

/-- Lookup in an association list (`HashMap::get`). -/
def alookup {α β : Type} [DecidableEq α] (k : α) : List (α × β) → Option β
  | [] => none
  | p :: t => if p.1 = k then some p.2 else alookup k t

/-- Remove a key from an association list (`HashMap::remove` /
`Entry::remove`). -/
def akeyRemove {α β : Type} [DecidableEq α] (k : α) (l : List (α × β)) :
    List (α × β) :=
  l.filter (fun p => p.1 ≠ k)

/-- Replace the value stored under a key (`Entry::and_modify`). -/
def aupdate {α β : Type} [DecidableEq α] (k : α) (v : β) (l : List (α × β)) :
    List (α × β) :=
  l.map (fun p => if p.1 = k then (k, v) else p)

/-! ## Base58 codec

The `bs58` crate is an external collaborator (spec §2 layer C, §6).
Modelled from the spec: base58 wire form of ids, standard Bitcoin
alphabet; leading zero bytes encode as leading `'1'` characters, the
rest is the big-endian base-58 numeral of the byte string's value. -/

/-- The 58-character Bitcoin base58 alphabet used by the `bs58` crate. -/
def b58alphabet : List Char :=
  ['1', '2', '3', '4', '5', '6', '7', '8', '9',
   'A', 'B', 'C', 'D', 'E', 'F', 'G', 'H', 'J', 'K', 'L', 'M', 'N',
   'P', 'Q', 'R', 'S', 'T', 'U', 'V', 'W', 'X', 'Y', 'Z',
   'a', 'b', 'c', 'd', 'e', 'f', 'g', 'h', 'i', 'j', 'k', 'm', 'n',
   'o', 'p', 'q', 'r', 's', 't', 'u', 'v', 'w', 'x', 'y', 'z']

/-- Character for one base-58 digit. -/
def b58digitChar (d : Nat) : Char := b58alphabet.getD d ' '

/-- Value of one base58 character; `none` for characters outside the
alphabet (`bs58` decode error). -/
def b58charVal (c : Char) : Option Nat :=
  if c ∈ b58alphabet then some (b58alphabet.indexOf c) else none

/-- Number of leading elements satisfying `p`. -/
def countLeading {α : Type} (p : α → Bool) : List α → Nat
  | [] => 0
  | a :: t => if p a then countLeading p t + 1 else 0

/-- Big-endian value of a byte string. -/
def bytesToNat (bytes : List Nat) : Nat := Nat.ofDigits 256 bytes.reverse

/-- Minimal big-endian byte string of a number. -/
def natToBytes (n : Nat) : List Nat := (Nat.digits 256 n).reverse

/-- Modelled from the spec: `bs58::encode(..).into_string()` — one `'1'`
per leading zero byte, followed by the big-endian base-58 digits of the
value of the bytes. -/
def b58encode (bytes : List Nat) : String :=
  String.mk (List.replicate (countLeading (fun b => b = 0) bytes) '1' ++
    (Nat.digits 58 (bytesToNat bytes)).reverse.map b58digitChar)

/-- Modelled from the spec: `bs58::decode(..).into_vec()` — fails on a
character outside the alphabet; otherwise one zero byte per leading
`'1'` character, followed by the minimal big-endian bytes of the
base-58 value of the string. -/
def b58decode (s : String) : Option (List Nat) :=
  match s.toList.mapM b58charVal with
  | none => none
  | some vals =>
      some (List.replicate (countLeading (fun c => c = '1') s.toList) 0 ++
        natToBytes (Nat.ofDigits 58 vals.reverse))

/-- `RawServerSubscriptionId::from_wire_message` (src/raw/core.rs
lines 387-402): a subscription id sent by the client must be a JSON
string; it is base58-decoded, rejected when longer than 32 bytes, and
left-padded with zero bytes to 32 bytes otherwise. -/
def from_wire_message (params : JsonV) : Option (List Nat) :=
  match params with
  | JsonV.str s =>
      match b58decode s with
      | none => none
      | some decoded =>
          if decoded.length > 32 then none
          else some (List.replicate (32 - decoded.length) 0 ++ decoded)
  | _ => none

/-! ## Raw dispatcher state (`src/raw/core.rs`) -/

/-- Identifier of a subscription (`[u8; 32]`, embedded as a byte
list). -/
abbrev SubId := List Nat

/-- Internal information about a subscription
(`SubscriptionState<I>`, src/raw/core.rs lines 137-148), with the
connection (`raw_id : I = WsRequestId`) embedded as a `Nat`. -/
structure SubscriptionState where
  raw_id : Nat
  method : String
  pending : Bool
deriving DecidableEq

/-- State of a `RawServer` (src/raw/core.rs lines 41-65).

`subscriptions` and `num_subscriptions` mirror the two hash maps of the
source.  The `BatchesState` field is not under src/ (it lives in the
`jsonrpsee-types` crate); modelled from the spec: `batchTags` is the
per-batch optional `ConnectionId` tag exposed by `batches()`, and
`pendingRequests` is the set of element ids for which `request_by_id`
re-borrows a still-pending request. -/
structure RawServerSt where
  batchTags : List (Option Nat)
  pendingRequests : List Nat
  subscriptions : List (SubId × SubscriptionState)
  num_subscriptions : List (Nat × Nat)
deriving DecidableEq

/-- Transport calls issued by a dispatcher operation
(`TransportServer::send` / `TransportServer::finish`). -/
inductive TransportAction
  | send (conn : Nat) (message : JsonV)
  | finish (conn : Nat) (message : Option JsonV)

/-- Events surfaced by `RawServer::next_event` that concern
subscriptions (src/raw/core.rs lines 82-94, restricted to the two
iterator-carrying variants the claims are about). -/
inductive RawServerEv
  | SubscriptionsReady (ids : List SubId)
  | SubscriptionsClosed (ids : List SubId)
deriving DecidableEq

/-- Error of `into_subscription` (src/raw/core.rs lines 120-127). -/
inductive IntoSubscriptionErr
  | NotSupported
  | Closed
deriving DecidableEq

/-- The data of a `RawServerRequest` view that `into_subscription`
reads: the enclosing batch's user param (the optional connection tag)
and the request's method name. -/
structure RawServerRequestView where
  user_param : Option Nat
  method : String
deriving DecidableEq

/-- The JSON-RPC subscription notification built by
`ServerSubscription::push` (src/raw/core.rs lines 439-447). -/
def subscriptionNotifJson (method : String) (id : SubId) (result : JsonV) :
    JsonV :=
  JsonV.obj
    [("jsonrpc", JsonV.str ("2.0")),
     ("method", JsonV.str method),
     ("params", JsonV.obj
        [("subscription", JsonV.str (b58encode id)),
         ("result", result)])]

/-- `ServerSubscription::push` (src/raw/core.rs lines 433-450).
The source `unwrap`s the lookup of the subscription state (`none`
models that panic).  A pending subscription returns without touching
the transport; otherwise the notification is sent on the
subscription's connection.  The dispatcher state is returned
unchanged in both cases, exactly as in the source. -/
def push (s : RawServerSt) (id : SubId) (message : JsonV) :
    Option (RawServerSt × List TransportAction) :=
  match alookup id s.subscriptions with
  | none => none
  | some subscription_state =>
      if subscription_state.pending then some (s, [])
      else
        some (s, [TransportAction.send subscription_state.raw_id
          (subscriptionNotifJson subscription_state.method id message)])

/-- `ServerSubscription::close` (src/raw/core.rs lines 459-484).
Removes the subscription's state (`none` models the source's `unwrap`
panic when it is absent), decrements the connection's count — removing
the entry when it was `1` (the source's `unreachable!()` on a vacant
entry is also `none`) — and issues `finish` iff this was the last
subscription on the connection and it was no longer pending. -/
def close (s : RawServerSt) (id : SubId) :
    Option (RawServerSt × List TransportAction) :=
  match alookup id s.subscriptions with
  | none => none
  | some subscription_state =>
      let subs := akeyRemove id s.subscriptions
      match alookup subscription_state.raw_id s.num_subscriptions with
      | none => none
      | some n =>
          if 2 ≤ n then
            some ({ s with
                      subscriptions := subs,
                      num_subscriptions :=
                        aupdate subscription_state.raw_id (n - 1)
                          s.num_subscriptions }, [])
          else
            let s2 := { s with
                          subscriptions := subs,
                          num_subscriptions :=
                            akeyRemove subscription_state.raw_id
                              s.num_subscriptions }
            if subscription_state.pending then some (s2, [])
            else
              some (s2,
                [TransportAction.finish subscription_state.raw_id none])

/-- The random-resampling loop of `RawServerRequest::into_subscription`
(src/raw/core.rs lines 347-370): `samples` is the stream of 32-byte
values produced by `rand::random()`; an occupied entry makes the loop
resample, a vacant one inserts the new `SubscriptionState` (pending,
on this connection, with this method) and bumps the connection's
count (`and_modify(+1).or_insert(1)`).  `none` means the sample
stream was exhausted (unbounded resampling never is). -/
def into_subscription_loop (s : RawServerSt) (raw_request_id : Nat)
    (method : String) : List SubId → Option (SubId × RawServerSt)
  | [] => none
  | cand :: rest =>
      match alookup cand s.subscriptions with
      | some _ => into_subscription_loop s raw_request_id method rest
      | none =>
          let subs := (cand,
            { raw_id := raw_request_id, method := method, pending := true })
            :: s.subscriptions
          let nums :=
            match alookup raw_request_id s.num_subscriptions with
            | some n => aupdate raw_request_id (n + 1) s.num_subscriptions
            | none => (raw_request_id, 1) :: s.num_subscriptions
          some (cand, { s with
                          subscriptions := subs,
                          num_subscriptions := nums })

/-- `RawServerRequest::into_subscription` (src/raw/core.rs lines
337-371).  Fails with `Closed` when the batch's user param (connection
tag) is `None`, then with `NotSupported` when
`supports_resuming(..).unwrap_or(false)` is `false`; otherwise runs
the resampling loop and, on success, sets the request's response to
the base58-encoded id string (returned here as the middle component)
and returns the new id. -/
def into_subscription (s : RawServerSt) (request : RawServerRequestView)
    (supports_resuming : Nat → Option Bool) (samples : List SubId) :
    Option (Except IntoSubscriptionErr (SubId × String × RawServerSt)) :=
  match request.user_param with
  | none => some (Except.error IntoSubscriptionErr.Closed)
  | some raw_request_id =>
      if (supports_resuming raw_request_id).getD false = false then
        some (Except.error IntoSubscriptionErr.NotSupported)
      else
        match into_subscription_loop s raw_request_id request.method samples
          with
        | none => none
        | some (new_id, s2) =>
            some (Except.ok (new_id, b58encode new_id, s2))

/-- The `ReadyToSend` arm of `RawServer::next_event` (src/raw/core.rs
lines 174-199).  With an absent connection tag the response is
discarded.  When the connection has an entry in `num_subscriptions`,
the response goes out via `send` (keeping the connection open), every
subscription on that connection is marked not pending and its id
collected, and `SubscriptionsReady` is surfaced; otherwise the
response goes out via `finish` (releasing the connection). -/
def processReadyToSend (s : RawServerSt) (response : JsonV)
    (user_param : Option Nat) :
    RawServerSt × List TransportAction × Option RawServerEv :=
  match user_param with
  | none => (s, [], none)
  | some raw_request_id =>
      if (alookup raw_request_id s.num_subscriptions).isSome then
        let ready := (s.subscriptions.filter
          (fun p => p.2.raw_id = raw_request_id)).map (fun p => p.1)
        let subs := s.subscriptions.map (fun p =>
          if p.2.raw_id = raw_request_id then
            (p.1, { p.2 with pending := false })
          else p)
        ({ s with subscriptions := subs },
          [TransportAction.send raw_request_id response],
          some (RawServerEv.SubscriptionsReady ready))
      else
        (s, [TransportAction.finish raw_request_id (some response)], none)

/-- The `TransportServerEvent::Closed` arm of `RawServer::next_event`
(src/raw/core.rs lines 204-228).  Every batch tag equal to the closed
connection is nulled; if the connection has an entry in
`num_subscriptions`, that entry is removed, every subscription keyed
by a collected id (those whose `raw_id` is the closed connection) is
removed, and `SubscriptionsClosed` is surfaced with the collected
ids. -/
def processClosed (s : RawServerSt) (raw_id : Nat) :
    RawServerSt × Option RawServerEv :=
  let tags := s.batchTags.map (fun t => if t = some raw_id then none else t)
  match alookup raw_id s.num_subscriptions with
  | none => ({ s with batchTags := tags }, none)
  | some _ =>
      let ids := (s.subscriptions.filter
        (fun p => p.2.raw_id = raw_id)).map (fun p => p.1)
      let subs := s.subscriptions.filter (fun p => p.1 ∉ ids)
      ({ batchTags := tags, pendingRequests := s.pendingRequests,
         subscriptions := subs,
         num_subscriptions := akeyRemove raw_id s.num_subscriptions },
        some (RawServerEv.SubscriptionsClosed ids))

/-- `RawServer::request_by_id` (src/raw/core.rs lines 242-249).
Modelled from the spec: the underlying `BatchesState::request_by_id`
(not under src/) re-borrows a still-pending request by its element id
and returns `None` for an unknown or already-answered id. -/
def request_by_id (s : RawServerSt) (id : Nat) : Option Nat :=
  if id ∈ s.pendingRequests then some id else none

/-- Outcome of one step of the background task. -/
inductive AnswerOutcome
  | handled
  | panicked
deriving DecidableEq

/-- The `AnswerRequest` arm of `background_task` (src/server.rs lines
361-364): `server.request_by_id(&request_id).unwrap().respond(answer)`.
The `.unwrap()` on the `Option` returned by `request_by_id` panics
when the id is unknown; `panicked` models that panic. -/
def answerRequest (s : RawServerSt) (request_id : Nat) : AnswerOutcome :=
  match request_by_id s request_id with
  | some _ => AnswerOutcome.handled
  | none => AnswerOutcome.panicked

/-! ## Invariants -/

/-- Number of live `SubscriptionState`s whose connection is `c`. -/
def subCount (s : RawServerSt) (c : Nat) : Nat :=
  (s.subscriptions.filter (fun p => p.2.raw_id = c)).length

/-- Hash maps hold at most one entry per key. -/
def nodupKeys (s : RawServerSt) : Prop :=
  (s.subscriptions.map (fun p => p.1)).Nodup ∧
  (s.num_subscriptions.map (fun p => p.1)).Nodup

/-- Invariant I1 of the spec: for every connection, the recorded count
(0 when absent) equals the number of `SubscriptionState`s referencing
it, and no entry stores 0 (`NonZeroUsize`).  In particular a
connection with a live subscription is a live key of
`num_subscriptions`. -/
def I1 (s : RawServerSt) : Prop :=
  ∀ c : Nat, (alookup c s.num_subscriptions).getD 0 = subCount s c ∧
    alookup c s.num_subscriptions ≠ some 0

/-! ## Theorems -/

lemma filter_ne_of_not_mem (regs : List String) (s : String) (h : s ∉ regs) :
    regs.filter (fun m => m ≠ s) = regs := by
  apply List.filter_eq_self.mpr
  intro m hm
  simp only [decide_eq_true_eq]
  intro hms
  exact h (hms ▸ hm)

/-- C8: registering an already-registered method name `M` returns
`MethodAlreadyRegistered M` and leaves the registered-names set
unchanged; registering a subscription pair `(S, U)` with `S` fresh and
`U` already registered returns `MethodAlreadyRegistered U` and rolls
back the insertion of `S`, leaving the set unchanged (so `S` stays
unregistered). -/
theorem register_duplicate_rejected (regs : List String) (M S U : String)
    (hM : M ∈ regs) (hS : S ∉ regs) (hU : U ∈ regs) :
    register_method regs M = (some (RegError.MethodAlreadyRegistered M), regs) ∧
    register_subscription regs S U =
      (some (RegError.MethodAlreadyRegistered U), regs) ∧
    S ∉ (register_subscription regs S U).2 := by
  have h1 : register_method regs M
      = (some (RegError.MethodAlreadyRegistered M), regs) := by
    simp [register_method, hM]
  have hU1 : U ∈ S :: regs := List.mem_cons_of_mem _ hU
  have h2 : register_subscription regs S U
      = (some (RegError.MethodAlreadyRegistered U), regs) := by
    simp only [register_subscription, if_neg hS, if_pos hU1]
    have : (S :: regs).filter (fun m => m ≠ S) = regs := by
      rw [List.filter_cons_of_neg (by simp)]
      exact filter_ne_of_not_mem regs S hS
    rw [this]
  refine ⟨h1, h2, ?_⟩
  rw [h2]
  exact hS

/-- Witness for `register_duplicate_rejected` at a concrete set. -/
theorem register_duplicate_rejected_witness :
    ("a" ∈ ["a", "b"] ∧ "c" ∉ ["a", "b"] ∧ "b" ∈ ["a", "b"]) ∧
    register_method ["a", "b"] "a"
      = (some (RegError.MethodAlreadyRegistered "a"), ["a", "b"]) ∧
    register_subscription ["a", "b"] "c" "b"
      = (some (RegError.MethodAlreadyRegistered "b"), ["a", "b"]) ∧
    "c" ∉ (register_subscription ["a", "b"] "c" "b").2 := by
  refine ⟨⟨by decide, by decide, by decide⟩, ?_⟩
  exact register_duplicate_rejected ["a", "b"] "a" "c" "b"
    (by decide) (by decide) (by decide)

/-- C10: `register_subscription` with identical subscribe and
unsubscribe names `N` (with `N` fresh) returns
`MethodAlreadyRegistered N` and leaves the registered-names set
unchanged: the subscribe-name insertion succeeds, the unsubscribe-name
insertion then collides with it, and the rollback removes it again. -/
theorem register_same_sub_unsub_rejected (regs : List String) (N : String)
    (hN : N ∉ regs) :
    register_subscription regs N N =
      (some (RegError.MethodAlreadyRegistered N), regs) := by
  have hN1 : N ∈ N :: regs := List.mem_cons_self _ _
  simp only [register_subscription, if_neg hN, if_pos hN1]
  rw [List.filter_cons_of_neg (by simp)]
  rw [filter_ne_of_not_mem regs N hN]

/-- Witness for `register_same_sub_unsub_rejected` at a concrete set. -/
theorem register_same_sub_unsub_rejected_witness :
    ("x" ∉ ["a", "b"]) ∧
    register_subscription ["a", "b"] "x" "x"
      = (some (RegError.MethodAlreadyRegistered "x"), ["a", "b"]) :=
  ⟨by decide, register_same_sub_unsub_rejected ["a", "b"] "x" (by decide)⟩

lemma alookup_eq_none_iff {α β : Type} [DecidableEq α] (k : α)
    (l : List (α × β)) : alookup k l = none ↔ k ∉ l.map (fun p => p.1) := by
  induction l with
  | nil => simp [alookup]
  | cons p t ih =>
    by_cases h : p.1 = k
    · simp [alookup, h]
    · simp [alookup, h, ih, Ne.symm h]

lemma alookup_mem {α β : Type} [DecidableEq α] {k : α} {v : β}
    {l : List (α × β)} (h : alookup k l = some v) : (k, v) ∈ l := by
  induction l with
  | nil => simp [alookup] at h
  | cons p t ih =>
    by_cases hp : p.1 = k
    · simp only [alookup, if_pos hp] at h
      have hv : p.2 = v := Option.some.inj h
      have : p = (k, v) := by
        cases p
        simp only at hp hv
        rw [hp, hv]
      rw [← this]
      exact List.mem_cons_self _ _
    · simp only [alookup, if_neg hp] at h
      exact List.mem_cons_of_mem _ (ih h)

lemma aupdate_cons {α β : Type} [DecidableEq α] (k : α) (v : β)
    (p : α × β) (t : List (α × β)) :
    aupdate k v (p :: t) =
      (if p.1 = k then (k, v) else p) :: aupdate k v t := rfl

lemma akeyRemove_cons {α β : Type} [DecidableEq α] (k : α)
    (p : α × β) (t : List (α × β)) :
    akeyRemove k (p :: t) =
      if p.1 = k then akeyRemove k t else p :: akeyRemove k t := by
  by_cases h : p.1 = k
  · simp [akeyRemove, List.filter_cons, h]
  · simp [akeyRemove, List.filter_cons, h]

lemma alookup_cons {α β : Type} [DecidableEq α] (k : α)
    (p : α × β) (t : List (α × β)) :
    alookup k (p :: t) = if p.1 = k then some p.2 else alookup k t := rfl

lemma alookup_aupdate_self {α β : Type} [DecidableEq α] (k : α) (v : β)
    (l : List (α × β)) :
    alookup k (aupdate k v l) = (alookup k l).map (fun _ => v) := by
  induction l with
  | nil => simp [alookup, aupdate]
  | cons p t ih =>
    by_cases h : p.1 = k
    · simp [alookup, aupdate, h]
    · simp only [aupdate, List.map_cons, if_neg h]
      simp only [alookup, if_neg h]
      exact ih

lemma alookup_aupdate_other {α β : Type} [DecidableEq α] {c k : α} (v : β)
    (l : List (α × β)) (hck : c ≠ k) :
    alookup c (aupdate k v l) = alookup c l := by
  induction l with
  | nil => rfl
  | cons p t ih =>
    rw [aupdate_cons]
    by_cases h : p.1 = k
    · rw [if_pos h, alookup_cons, alookup_cons,
        if_neg (fun hl : k = c => hck hl.symm), ih,
        if_neg (fun hl : p.1 = c => hck (h ▸ hl).symm)]
    · rw [if_neg h, alookup_cons, alookup_cons, ih]

lemma alookup_akeyRemove_self {α β : Type} [DecidableEq α] (k : α)
    (l : List (α × β)) : alookup k (akeyRemove k l) = none := by
  induction l with
  | nil => simp [alookup, akeyRemove]
  | cons p t ih =>
    by_cases h : p.1 = k
    · simpa [akeyRemove, h] using ih
    · simpa [akeyRemove, alookup, h] using ih

lemma alookup_akeyRemove_other {α β : Type} [DecidableEq α] {c k : α}
    (l : List (α × β)) (hck : c ≠ k) :
    alookup c (akeyRemove k l) = alookup c l := by
  induction l with
  | nil => rfl
  | cons p t ih =>
    rw [akeyRemove_cons]
    by_cases h : p.1 = k
    · rw [if_pos h, ih, alookup_cons,
        if_neg (fun hl : p.1 = c => hck (h ▸ hl).symm)]
    · rw [if_neg h, alookup_cons, alookup_cons, ih]

lemma akeyRemove_of_not_mem {α β : Type} [DecidableEq α] {k : α}
    {l : List (α × β)} (h : k ∉ l.map (fun p => p.1)) :
    akeyRemove k l = l := by
  apply List.filter_eq_self.mpr
  intro p hp
  simp only [ne_eq, decide_eq_true_eq]
  intro hpk
  exact h (hpk ▸ List.mem_map_of_mem (fun q => q.1) hp)

lemma keys_aupdate {α β : Type} [DecidableEq α] (k : α) (v : β)
    (l : List (α × β)) :
    (aupdate k v l).map (fun p => p.1) = l.map (fun p => p.1) := by
  induction l with
  | nil => rfl
  | cons p t ih =>
    rw [aupdate_cons, List.map_cons, List.map_cons, ih]
    by_cases h : p.1 = k
    · rw [if_pos h, h]
    · rw [if_neg h]

/-- C1: the `AnswerRequest` control-message arm of the background task
at a request id unknown to the dispatcher.  The claim (and the spec)
say the answer is silently dropped and the task continues; the code
(src/server.rs line 363) calls `.unwrap()` on `request_by_id`'s `None`
and panics. -/
theorem answer_request_unknown_id_panics :
    request_by_id (RawServerSt.mk [] [] [] []) 0 = none ∧
    answerRequest (RawServerSt.mk [] [] [] []) 0 = AnswerOutcome.panicked :=
  ⟨rfl, rfl⟩

/-- C2: `push` on a subscription whose `pending` flag is set is a
silent no-op — no transport action is emitted, the message is
discarded, and the dispatcher state is returned unchanged. -/
theorem push_pending_noop (s : RawServerSt) (id : SubId) (message : JsonV)
    (st : SubscriptionState) (h : alookup id s.subscriptions = some st)
    (hp : st.pending = true) :
    push s id message = some (s, []) := by
  simp [push, h, hp]

/-- Witness for `push_pending_noop` at a concrete dispatcher state. -/
theorem push_pending_noop_witness :
    alookup ([1] : SubId)
        (RawServerSt.mk [] [] [([1], SubscriptionState.mk 7 ("m") true)]
          [(7, 1)]).subscriptions =
      some (SubscriptionState.mk 7 ("m") true) ∧
    push (RawServerSt.mk [] [] [([1], SubscriptionState.mk 7 ("m") true)]
        [(7, 1)]) [1] JsonV.null =
      some (RawServerSt.mk [] [] [([1], SubscriptionState.mk 7 ("m") true)]
        [(7, 1)], []) :=
  ⟨by decide, push_pending_noop _ _ _ (SubscriptionState.mk 7 ("m") true)
    (by decide) rfl⟩

/-- C4: `close` on a subscription removes its `SubscriptionState`,
decrements its connection's count in `num_subscriptions` (removing the
entry when the count reaches zero), and issues a transport `finish`
iff the count reached zero and the subscription was not still
pending. -/
theorem close_spec (s : RawServerSt) (id : SubId) (st : SubscriptionState)
    (n : Nat) (hs : alookup id s.subscriptions = some st)
    (hn : alookup st.raw_id s.num_subscriptions = some n) (hpos : 1 ≤ n) :
    ∃ out, close s id = some out ∧
      out.1.subscriptions = akeyRemove id s.subscriptions ∧
      (2 ≤ n → alookup st.raw_id out.1.num_subscriptions = some (n - 1)) ∧
      (n = 1 → alookup st.raw_id out.1.num_subscriptions = none) ∧
      (out.2 = [TransportAction.finish st.raw_id none] ↔
        n = 1 ∧ st.pending = false) ∧
      (¬(n = 1 ∧ st.pending = false) → out.2 = []) := by
  by_cases h2 : 2 ≤ n
  · refine ⟨({ s with
        subscriptions := akeyRemove id s.subscriptions,
        num_subscriptions :=
          aupdate st.raw_id (n - 1) s.num_subscriptions }, []),
      ?_, rfl, ?_, ?_, ?_, ?_⟩
    · simp only [close, hs, hn, if_pos h2]
    · intro _
      rw [alookup_aupdate_self, hn]
      rfl
    · intro h1
      omega
    · constructor
      · intro h
        exact absurd h (by simp)
      · rintro ⟨h1, _⟩
        omega
    · intro _
      rfl
  · have hn1 : n = 1 := by omega
    by_cases hp : st.pending = true
    · refine ⟨({ s with
          subscriptions := akeyRemove id s.subscriptions,
          num_subscriptions :=
            akeyRemove st.raw_id s.num_subscriptions }, []),
        ?_, rfl, ?_, ?_, ?_, ?_⟩
      · simp only [close, hs, hn, if_neg h2, if_pos hp]
      · intro h
        omega
      · intro _
        exact alookup_akeyRemove_self _ _
      · constructor
        · intro h
          exact absurd h (by simp)
        · rintro ⟨_, hpf⟩
          rw [hp] at hpf
          exact absurd hpf (by simp)
      · intro _
        rfl
    · have hpf : st.pending = false := by
        cases hb : st.pending
        · rfl
        · exact absurd hb hp
      refine ⟨({ s with
          subscriptions := akeyRemove id s.subscriptions,
          num_subscriptions :=
            akeyRemove st.raw_id s.num_subscriptions },
          [TransportAction.finish st.raw_id none]),
        ?_, rfl, ?_, ?_, ?_, ?_⟩
      · simp only [close, hs, hn, if_neg h2, hpf]
        simp
      · intro h
        omega
      · intro _
        exact alookup_akeyRemove_self _ _
      · simp [hn1, hpf]
      · intro hcon
        exact absurd ⟨hn1, hpf⟩ hcon

/-- Witness for `close_spec` at a concrete dispatcher state: one
non-pending subscription on connection 7 with count 1; closing it
removes both entries and issues `finish`. -/
theorem close_spec_witness :
    alookup ([1] : SubId)
        (RawServerSt.mk [] [] [([1], SubscriptionState.mk 7 ("m") false)]
          [(7, 1)]).subscriptions =
      some (SubscriptionState.mk 7 ("m") false) ∧
    ∃ out,
      close (RawServerSt.mk [] [] [([1], SubscriptionState.mk 7 ("m") false)]
          [(7, 1)]) [1] = some out ∧
      out.1.subscriptions =
        akeyRemove ([1] : SubId)
          (RawServerSt.mk [] [] [([1], SubscriptionState.mk 7 ("m") false)]
            [(7, 1)]).subscriptions ∧
      (2 ≤ 1 → alookup 7 out.1.num_subscriptions = some (1 - 1)) ∧
      (1 = 1 → alookup 7 out.1.num_subscriptions = none) ∧
      (out.2 = [TransportAction.finish 7 none] ↔
        1 = 1 ∧ (SubscriptionState.mk 7 ("m") false).pending = false) ∧
      (¬(1 = 1 ∧ (SubscriptionState.mk 7 ("m") false).pending = false) →
        out.2 = []) :=
  ⟨by decide,
    close_spec (RawServerSt.mk [] []
        [([1], SubscriptionState.mk 7 ("m") false)] [(7, 1)])
      [1] (SubscriptionState.mk 7 ("m") false) 1 (by decide) (by decide)
      (by decide)⟩

lemma into_subscription_loop_sound (s : RawServerSt) (c : Nat) (m : String)
    (samples : List SubId) (new_id : SubId) (s2 : RawServerSt)
    (h : into_subscription_loop s c m samples = some (new_id, s2)) :
    alookup new_id s.subscriptions = none ∧
    s2.subscriptions =
      (new_id, SubscriptionState.mk c m true) :: s.subscriptions ∧
    s2.num_subscriptions =
      (match alookup c s.num_subscriptions with
       | some n => aupdate c (n + 1) s.num_subscriptions
       | none => (c, 1) :: s.num_subscriptions) ∧
    s2.batchTags = s.batchTags ∧ s2.pendingRequests = s.pendingRequests := by
  induction samples with
  | nil => simp [into_subscription_loop] at h
  | cons cand rest ih =>
    cases halo : alookup cand s.subscriptions with
    | some v =>
      simp only [into_subscription_loop, halo] at h
      exact ih h
    | none =>
      simp only [into_subscription_loop, halo] at h
      obtain ⟨h1, h2⟩ := Prod.mk.injEq .. ▸ Option.some.inj h
      subst h1
      subst h2
      refine ⟨halo, rfl, rfl, rfl, rfl⟩

/-- C3: `into_subscription` fails with `Closed` when the enclosing
batch's connection tag is absent, fails with `NotSupported` when the
transport does not support resuming that connection, and on success
sets the request's response to the base58-encoded subscription-id
string, records the new pending `SubscriptionState`, and increments
the per-connection subscription count, inserting the value 1 on the
connection's first subscription. -/
theorem into_subscription_spec (s : RawServerSt)
    (request : RawServerRequestView) (sr : Nat → Option Bool)
    (samples : List SubId) :
    (request.user_param = none →
      into_subscription s request sr samples =
        some (Except.error IntoSubscriptionErr.Closed)) ∧
    (∀ c, request.user_param = some c → (sr c).getD false = false →
      into_subscription s request sr samples =
        some (Except.error IntoSubscriptionErr.NotSupported)) ∧
    (∀ c new_id resp s2, request.user_param = some c →
      into_subscription s request sr samples =
        some (Except.ok (new_id, resp, s2)) →
      resp = b58encode new_id ∧
      alookup new_id s2.subscriptions =
        some (SubscriptionState.mk c request.method true) ∧
      (alookup c s.num_subscriptions = none →
        alookup c s2.num_subscriptions = some 1) ∧
      (∀ n, alookup c s.num_subscriptions = some n →
        alookup c s2.num_subscriptions = some (n + 1))) := by
  refine ⟨?_, ?_, ?_⟩
  · intro h
    simp [into_subscription, h]
  · intro c h hsr
    simp [into_subscription, h, hsr]
  · intro c new_id resp s2 h hok
    simp only [into_subscription, h] at hok
    by_cases hsr : (sr c).getD false = false
    · rw [if_pos hsr] at hok
      exact absurd (Option.some.inj hok) (by simp)
    · rw [if_neg hsr] at hok
      cases hloop : into_subscription_loop s c request.method samples with
      | none =>
        rw [hloop] at hok
        exact absurd hok (by simp)
      | some pr =>
        rw [hloop] at hok
        obtain ⟨nid, s2x⟩ := pr
        have hinj := Option.some.inj hok
        have h1 : nid = new_id := congrArg (fun e => match e with
          | Except.ok (a, _, _) => a
          | _ => nid) hinj
        have h3 : s2x = s2 := congrArg (fun e => match e with
          | Except.ok (_, _, a) => a
          | _ => s2x) hinj
        have h2 : b58encode nid = resp := congrArg (fun e => match e with
          | Except.ok (_, a, _) => a
          | _ => resp) hinj
        subst h1
        subst h3
        obtain ⟨hfresh, hsubs, hnums, _, _⟩ :=
          into_subscription_loop_sound s c request.method samples _ _
            hloop
        refine ⟨h2.symm, ?_, ?_, ?_⟩
        · rw [hsubs, alookup_cons, if_pos rfl]
        · intro hnone
          rw [hnums, hnone, alookup_cons, if_pos rfl]
        · intro n hsome
          rw [hnums, hsome, alookup_aupdate_self, hsome]
          rfl

/-- Witness for `into_subscription_spec`: promoting a request on
connection 5 of an empty dispatcher succeeds, stores the pending
state, and inserts count 1. -/
theorem into_subscription_spec_witness :
    (RawServerRequestView.mk (some 5) ("sub")).user_param = some 5 ∧
    into_subscription (RawServerSt.mk [] [] [] [])
        (RawServerRequestView.mk (some 5) ("sub")) (fun _ => some true)
        [[1]] =
      some (Except.ok (([1] : SubId), b58encode [1],
        RawServerSt.mk [] [] [([1], SubscriptionState.mk 5 ("sub") true)]
          [(5, 1)])) ∧
    (b58encode [1] = b58encode [1] ∧
      alookup ([1] : SubId)
        (RawServerSt.mk [] [] [([1], SubscriptionState.mk 5 ("sub") true)]
          [(5, 1)]).subscriptions =
        some (SubscriptionState.mk 5
          ((RawServerRequestView.mk (some 5) ("sub")).method) true) ∧
      (alookup 5 (RawServerSt.mk [] [] ([] : List (SubId × SubscriptionState))
          []).num_subscriptions = none →
        alookup 5 (RawServerSt.mk [] []
          [([1], SubscriptionState.mk 5 ("sub") true)]
          [(5, 1)]).num_subscriptions = some 1) ∧
      (∀ n, alookup 5 (RawServerSt.mk [] []
          ([] : List (SubId × SubscriptionState)) []).num_subscriptions =
            some n →
        alookup 5 (RawServerSt.mk [] []
          [([1], SubscriptionState.mk 5 ("sub") true)]
          [(5, 1)]).num_subscriptions = some (n + 1))) :=
  ⟨rfl, rfl,
    (into_subscription_spec (RawServerSt.mk [] [] [] [])
      (RawServerRequestView.mk (some 5) ("sub")) (fun _ => some true)
      [[1]]).2.2 5 [1] (b58encode [1])
      (RawServerSt.mk [] [] [([1], SubscriptionState.mk 5 ("sub") true)]
        [(5, 1)]) rfl rfl⟩



/-- C5 counterexample: the dispatcher state has, on connection 7, one
pending subscription `[1]` and one already-ready subscription `[2]`.
Processing `ReadyToSend` emits `SubscriptionsReady [[1], [2]]`, which
is *not* the list of subscriptions whose pending flag it just cleared
(only `[1]` was pending): the claim as stated fails on the code. -/
theorem ready_to_send_lists_already_ready :
    (processReadyToSend
        (RawServerSt.mk [] []
          [([1], SubscriptionState.mk 7 ("m") true),
           ([2], SubscriptionState.mk 7 ("m") false)]
          [(7, 2)]) JsonV.null (some 7)).2.2 ≠
      some (RawServerEv.SubscriptionsReady
        (((RawServerSt.mk [] []
            [([1], SubscriptionState.mk 7 ("m") true),
             ([2], SubscriptionState.mk 7 ("m") false)]
            [(7, 2)]).subscriptions.filter
          (fun p => p.2.raw_id = 7 ∧ p.2.pending = true)).map
            (fun p => p.1))) := by decide

/-- C5 (amended): when the dispatcher processes a `ReadyToSend` event
whose connection `c` is present and has at least one subscription
(under invariant I1), it sends the response via transport `send`
(keeping the connection open), sets the pending flag of *every*
subscription on that connection to false, and emits
`SubscriptionsReady` listing *all* subscriptions on that connection —
including those that were already ready — after which every
subscription on `c` is non-pending (so a cleared flag is never set
again by this step). -/
theorem ready_to_send_with_subs_spec (s : RawServerSt) (response : JsonV)
    (c : Nat) (hI : I1 s)
    (hsub : ∃ p ∈ s.subscriptions, p.2.raw_id = c) :
    (processReadyToSend s response (some c)).2.1 =
      [TransportAction.send c response] ∧
    (processReadyToSend s response (some c)).2.2 =
      some (RawServerEv.SubscriptionsReady
        ((s.subscriptions.filter (fun p => p.2.raw_id = c)).map
          (fun p => p.1))) ∧
    (processReadyToSend s response (some c)).1.subscriptions =
      s.subscriptions.map (fun p =>
        if p.2.raw_id = c then (p.1, { p.2 with pending := false })
        else p) ∧
    (∀ p ∈ (processReadyToSend s response (some c)).1.subscriptions,
      p.2.raw_id = c → p.2.pending = false) := by
  have hpos : 1 ≤ subCount s c := by
    obtain ⟨p, hp, hpc⟩ := hsub
    have hmem : p ∈ s.subscriptions.filter (fun q => q.2.raw_id = c) :=
      List.mem_filter.mpr ⟨hp, by simp [hpc]⟩
    have hlen := List.length_pos.mpr (List.ne_nil_of_mem hmem)
    simpa [subCount] using hlen
  have hiso : (alookup c s.num_subscriptions).isSome = true := by
    cases halo : alookup c s.num_subscriptions with
    | none =>
      have h0 := (hI c).1
      rw [halo] at h0
      simp only [Option.getD_none] at h0
      omega
    | some n => rfl
  have hred : processReadyToSend s response (some c) =
      ({ s with subscriptions := s.subscriptions.map (fun p =>
          if p.2.raw_id = c then (p.1, { p.2 with pending := false })
          else p) },
        [TransportAction.send c response],
        some (RawServerEv.SubscriptionsReady
          ((s.subscriptions.filter (fun p => p.2.raw_id = c)).map
            (fun p => p.1)))) := by
    simp only [processReadyToSend, hiso, if_true]
  refine ⟨by rw [hred], by rw [hred], by rw [hred], ?_⟩
  intro p hp hc
  rw [hred] at hp
  simp only at hp
  obtain ⟨q, hq, hqe⟩ := List.mem_map.mp hp
  by_cases hqc : q.2.raw_id = c
  · rw [if_pos hqc] at hqe
    rw [← hqe]
  · rw [if_neg hqc] at hqe
    rw [← hqe] at hc
    exact absurd hc hqc

/-- Witness for `ready_to_send_with_subs_spec` at a concrete state. -/
theorem ready_to_send_with_subs_spec_witness :
    I1 (RawServerSt.mk [] []
        [([1], SubscriptionState.mk 7 ("m") true),
         ([2], SubscriptionState.mk 7 ("m") false)] [(7, 2)]) ∧
    (∃ p ∈ (RawServerSt.mk [] []
        [([1], SubscriptionState.mk 7 ("m") true),
         ([2], SubscriptionState.mk 7 ("m") false)]
        [(7, 2)]).subscriptions, p.2.raw_id = 7) ∧
    (processReadyToSend (RawServerSt.mk [] []
        [([1], SubscriptionState.mk 7 ("m") true),
         ([2], SubscriptionState.mk 7 ("m") false)]
        [(7, 2)]) JsonV.null (some 7)).2.1 =
      [TransportAction.send 7 JsonV.null] := by
  have hI : I1 (RawServerSt.mk [] []
      [([1], SubscriptionState.mk 7 ("m") true),
       ([2], SubscriptionState.mk 7 ("m") false)] [(7, 2)]) := by
    intro c
    by_cases h : 7 = c
    · subst h
      exact ⟨by decide, by decide⟩
    · constructor
      · rw [show alookup c ((RawServerSt.mk [] []
            [([1], SubscriptionState.mk 7 ("m") true),
             ([2], SubscriptionState.mk 7 ("m") false)]
            [(7, 2)]).num_subscriptions) = none from by
          rw [alookup_cons, if_neg h]
          rfl]
        simp [subCount, h]
      · rw [alookup_cons, if_neg h]
        simp [alookup]
  have hsub : ∃ p ∈ (RawServerSt.mk [] []
      [([1], SubscriptionState.mk 7 ("m") true),
       ([2], SubscriptionState.mk 7 ("m") false)]
      [(7, 2)]).subscriptions, p.2.raw_id = 7 :=
    ⟨([1], SubscriptionState.mk 7 ("m") true), by decide, rfl⟩
  exact ⟨hI, hsub,
    (ready_to_send_with_subs_spec (RawServerSt.mk [] []
        [([1], SubscriptionState.mk 7 ("m") true),
         ([2], SubscriptionState.mk 7 ("m") false)]
        [(7, 2)]) JsonV.null 7 hI hsub).1⟩

lemma eq_of_keys_nodup {α β : Type} {l : List (α × β)}
    (h : (l.map (fun p => p.1)).Nodup) {p q : α × β}
    (hp : p ∈ l) (hq : q ∈ l) (hk : p.1 = q.1) : p = q := by
  induction l with
  | nil => cases hp
  | cons a t ih =>
    rw [List.map_cons, List.nodup_cons] at h
    rcases List.mem_cons.mp hp with hp1 | hp2
    · rcases List.mem_cons.mp hq with hq1 | hq2
      · rw [hp1, hq1]
      · exfalso
        apply h.1
        have hm : q.1 ∈ t.map (fun r => r.1) :=
          List.mem_map_of_mem (fun r => r.1) hq2
        rw [← hk, hp1] at hm
        exact hm
    · rcases List.mem_cons.mp hq with hq1 | hq2
      · exfalso
        apply h.1
        have hm : p.1 ∈ t.map (fun r => r.1) :=
          List.mem_map_of_mem (fun r => r.1) hp2
        rw [hk, hq1] at hm
        exact hm
      · exact ih h.2 hp2 hq2

lemma mem_collected_iff (l : List (SubId × SubscriptionState))
    (hnod : (l.map (fun p => p.1)).Nodup) (c : Nat)
    {p : SubId × SubscriptionState} (hp : p ∈ l) :
    (p.1 ∈ (l.filter (fun q => q.2.raw_id = c)).map (fun q => q.1)) ↔
      p.2.raw_id = c := by
  constructor
  · intro hmem
    obtain ⟨q, hq, hqe⟩ := List.mem_map.mp hmem
    have hqf := List.mem_filter.mp hq
    have hpq : p = q := eq_of_keys_nodup hnod hp hqf.1 hqe.symm
    rw [hpq]
    exact of_decide_eq_true hqf.2
  · intro hc
    refine List.mem_map_of_mem (fun q => q.1) (List.mem_filter.mpr ⟨hp, ?_⟩)
    exact decide_eq_true hc

lemma filter_not_mem_collected (l : List (SubId × SubscriptionState))
    (hnod : (l.map (fun p => p.1)).Nodup) (c : Nat) :
    l.filter (fun p =>
      p.1 ∉ (l.filter (fun q => q.2.raw_id = c)).map (fun q => q.1)) =
    l.filter (fun p => ¬(p.2.raw_id = c)) := by
  apply List.filter_congr
  intro p hp
  have h := mem_collected_iff l hnod c hp
  by_cases hc : p.2.raw_id = c
  · have h1 : p.1 ∈ (l.filter (fun q => q.2.raw_id = c)).map (fun q => q.1) :=
      h.mpr hc
    simp [hc, h1]
  · have h1 : p.1 ∉ (l.filter (fun q => q.2.raw_id = c)).map (fun q => q.1) :=
      fun hmem => hc (h.mp hmem)
    simp [hc, h1]

lemma subCount_eq_zero_filter (s : RawServerSt) (c : Nat)
    (h : subCount s c = 0) :
    s.subscriptions.filter (fun p => ¬(p.2.raw_id = c)) = s.subscriptions := by
  have hnil : s.subscriptions.filter (fun p => p.2.raw_id = c) = [] :=
    List.length_eq_zero.mp h
  have hall := List.filter_eq_nil_iff.mp hnil
  apply List.filter_eq_self.mpr
  intro p hp
  have := hall p hp
  simp only [decide_eq_true_eq] at this ⊢
  exact this

/-- C6: when the transport reports connection `c` closed, the
dispatcher nulls the `ConnectionId` tag of every batch tagged with
`c`, removes `c`'s per-connection subscription-count entry, drops
every `SubscriptionState` whose connection is `c`, and, whenever `c`
had at least one subscription, emits `SubscriptionsClosed` listing
exactly the ids of the dropped subscriptions. -/
theorem closed_connection_spec (s : RawServerSt) (c : Nat)
    (hWF : nodupKeys s) (hI : I1 s) :
    (processClosed s c).1.batchTags =
      s.batchTags.map (fun t => if t = some c then none else t) ∧
    alookup c (processClosed s c).1.num_subscriptions = none ∧
    (processClosed s c).1.subscriptions =
      s.subscriptions.filter (fun p => ¬(p.2.raw_id = c)) ∧
    ((∃ p ∈ s.subscriptions, p.2.raw_id = c) →
      (processClosed s c).2 = some (RawServerEv.SubscriptionsClosed
        ((s.subscriptions.filter (fun p => p.2.raw_id = c)).map
          (fun p => p.1)))) := by
  cases halo : alookup c s.num_subscriptions with
  | none =>
    have hzero : subCount s c = 0 := by
      have h0 := (hI c).1
      rw [halo] at h0
      simpa using h0.symm
    have hred : processClosed s c =
        ({ s with
            batchTags :=
              s.batchTags.map (fun t => if t = some c then none else t) },
          none) := by
      simp only [processClosed, halo]
    refine ⟨by rw [hred], ?_, ?_, ?_⟩
    · rw [hred]
      exact halo
    · rw [hred]
      exact (subCount_eq_zero_filter s c hzero).symm
    · intro ⟨p, hp, hpc⟩
      exfalso
      have hmem : p ∈ s.subscriptions.filter (fun q => q.2.raw_id = c) :=
        List.mem_filter.mpr ⟨hp, decide_eq_true hpc⟩
      have := List.ne_nil_of_mem hmem
      exact this (List.length_eq_zero.mp hzero)
  | some n =>
    have hred : processClosed s c =
        ({ batchTags :=
              s.batchTags.map (fun t => if t = some c then none else t),
           pendingRequests := s.pendingRequests,
           subscriptions :=
             s.subscriptions.filter (fun p =>
               p.1 ∉ (s.subscriptions.filter
                 (fun q => q.2.raw_id = c)).map (fun q => q.1)),
           num_subscriptions := akeyRemove c s.num_subscriptions },
          some (RawServerEv.SubscriptionsClosed
            ((s.subscriptions.filter (fun q => q.2.raw_id = c)).map
              (fun q => q.1)))) := by
      simp only [processClosed, halo]
    refine ⟨by rw [hred], ?_, ?_, fun _ => by rw [hred]⟩
    · rw [hred]
      exact alookup_akeyRemove_self _ _
    · rw [hred]
      exact filter_not_mem_collected s.subscriptions hWF.1 c

/-- Witness for `closed_connection_spec` at a concrete state. -/
theorem closed_connection_spec_witness :
    nodupKeys (RawServerSt.mk [some 7, some 3, none] []
        [([1], SubscriptionState.mk 7 ("m") true)] [(7, 1)]) ∧
    I1 (RawServerSt.mk [some 7, some 3, none] []
        [([1], SubscriptionState.mk 7 ("m") true)] [(7, 1)]) ∧
    ((processClosed (RawServerSt.mk [some 7, some 3, none] []
        [([1], SubscriptionState.mk 7 ("m") true)] [(7, 1)]) 7).1.batchTags =
      (RawServerSt.mk [some 7, some 3, none] []
        [([1], SubscriptionState.mk 7 ("m") true)]
        [(7, 1)]).batchTags.map (fun t => if t = some 7 then none else t) ∧
     alookup 7 (processClosed (RawServerSt.mk [some 7, some 3, none] []
        [([1], SubscriptionState.mk 7 ("m") true)]
        [(7, 1)]) 7).1.num_subscriptions = none ∧
     (processClosed (RawServerSt.mk [some 7, some 3, none] []
        [([1], SubscriptionState.mk 7 ("m") true)]
        [(7, 1)]) 7).1.subscriptions =
      (RawServerSt.mk [some 7, some 3, none] []
        [([1], SubscriptionState.mk 7 ("m") true)]
        [(7, 1)]).subscriptions.filter (fun p => ¬(p.2.raw_id = 7)) ∧
     ((∃ p ∈ (RawServerSt.mk [some 7, some 3, none] []
        [([1], SubscriptionState.mk 7 ("m") true)]
        [(7, 1)]).subscriptions, p.2.raw_id = 7) →
      (processClosed (RawServerSt.mk [some 7, some 3, none] []
        [([1], SubscriptionState.mk 7 ("m") true)] [(7, 1)]) 7).2 =
        some (RawServerEv.SubscriptionsClosed
          (((RawServerSt.mk [some 7, some 3, none] []
            [([1], SubscriptionState.mk 7 ("m") true)]
            [(7, 1)]).subscriptions.filter
              (fun p => p.2.raw_id = 7)).map (fun p => p.1))))) := by
  have hWF : nodupKeys (RawServerSt.mk [some 7, some 3, none] []
      [([1], SubscriptionState.mk 7 ("m") true)] [(7, 1)]) :=
    ⟨by decide, by decide⟩
  have hI : I1 (RawServerSt.mk [some 7, some 3, none] []
      [([1], SubscriptionState.mk 7 ("m") true)] [(7, 1)]) := by
    intro c
    by_cases h : 7 = c
    · subst h
      exact ⟨by decide, by decide⟩
    · constructor
      · rw [show alookup c ((RawServerSt.mk [some 7, some 3, none] []
            [([1], SubscriptionState.mk 7 ("m") true)]
            [(7, 1)]).num_subscriptions) = none from by
          rw [alookup_cons, if_neg h]
          rfl]
        simp [subCount, h]
      · rw [alookup_cons, if_neg h]
        simp [alookup]
  exact ⟨hWF, hI,
    closed_connection_spec (RawServerSt.mk [some 7, some 3, none] []
      [([1], SubscriptionState.mk 7 ("m") true)] [(7, 1)]) 7 hWF hI⟩

lemma keys_akeyRemove_sublist {α β : Type} [DecidableEq α] (k : α)
    (l : List (α × β)) :
    ((akeyRemove k l).map (fun p => p.1)).Sublist (l.map (fun p => p.1)) :=
  (List.filter_sublist l).map _

lemma keys_filter_sublist {α β : Type} (q : α × β → Bool)
    (l : List (α × β)) :
    ((l.filter q).map (fun p => p.1)).Sublist (l.map (fun p => p.1)) :=
  (List.filter_sublist l).map _

lemma subCount_remove (l : List (SubId × SubscriptionState))
    (hnod : (l.map (fun p => p.1)).Nodup) (id : SubId)
    (st : SubscriptionState) (hl : alookup id l = some st) (c : Nat) :
    ((akeyRemove id l).filter (fun p => p.2.raw_id = c)).length =
      (l.filter (fun p => p.2.raw_id = c)).length -
        (if st.raw_id = c then 1 else 0) := by
  induction l with
  | nil => simp [alookup] at hl
  | cons a t ih =>
    rw [List.map_cons, List.nodup_cons] at hnod
    by_cases h : a.1 = id
    · have hst : a.2 = st := by
        rw [alookup_cons, if_pos h] at hl
        exact Option.some.inj hl
      have hnotin : id ∉ t.map (fun p => p.1) := by
        rw [← h]
        exact hnod.1
      rw [akeyRemove_cons, if_pos h, akeyRemove_of_not_mem hnotin]
      subst hst
      by_cases hac : a.2.raw_id = c
      · simp [List.filter_cons, hac]
      · simp [List.filter_cons, hac]
    · have hl2 : alookup id t = some st := by
        rw [alookup_cons, if_neg h] at hl
        exact hl
      have ihh := ih hnod.2 hl2
      have hmem : st.raw_id = c →
          1 ≤ (t.filter (fun p => p.2.raw_id = c)).length := by
        intro hstc
        have hm : (id, st) ∈ t.filter (fun p => p.2.raw_id = c) :=
          List.mem_filter.mpr ⟨alookup_mem hl2, decide_eq_true hstc⟩
        exact List.length_pos.mpr (List.ne_nil_of_mem hm)
      rw [akeyRemove_cons, if_neg h]
      by_cases hstc : st.raw_id = c
      · have hge := hmem hstc
        rw [if_pos hstc] at ihh ⊢
        by_cases hac : a.2.raw_id = c
        · simp only [List.filter_cons, hac]
          simp
          omega
        · simp only [List.filter_cons, hac]
          simp [hac]
          omega
      · rw [if_neg hstc] at ihh ⊢
        by_cases hac : a.2.raw_id = c
        · simp only [List.filter_cons, hac]
          simp
          omega
        · simp only [List.filter_cons, hac]
          simp [hac]
          omega

lemma filter_c_of_filter_not_c (l : List (SubId × SubscriptionState))
    (c : Nat) :
    (l.filter (fun p => ¬(p.2.raw_id = c))).filter
      (fun p => p.2.raw_id = c) = [] := by
  rw [List.filter_filter]
  apply List.filter_eq_nil_iff.mpr
  intro a ha
  by_cases h : a.2.raw_id = c <;> simp [h]

lemma filter_not_c_count (l : List (SubId × SubscriptionState)) {c cp : Nat}
    (h : c ≠ cp) :
    (l.filter (fun p => ¬(p.2.raw_id = c))).filter
      (fun p => p.2.raw_id = cp) = l.filter (fun p => p.2.raw_id = cp) := by
  rw [List.filter_filter]
  apply List.filter_congr
  intro a ha
  by_cases hcp : a.2.raw_id = cp
  · have hcc : ¬(cp = c) := fun hh => h hh.symm
    simp [hcp, hcc]
  · simp [hcp]

lemma subCount_cons_self (l : List (SubId × SubscriptionState)) (id : SubId)
    (c : Nat) (m : String) (pend : Bool) :
    (((id, SubscriptionState.mk c m pend) :: l).filter
      (fun p => p.2.raw_id = c)).length =
      (l.filter (fun p => p.2.raw_id = c)).length + 1 := by
  simp [List.filter_cons]

lemma subCount_cons_other (l : List (SubId × SubscriptionState)) (id : SubId)
    (c : Nat) (m : String) (pend : Bool) (cp : Nat) (h : ¬(c = cp)) :
    (((id, SubscriptionState.mk c m pend) :: l).filter
      (fun p => p.2.raw_id = cp)).length =
      (l.filter (fun p => p.2.raw_id = cp)).length := by
  simp [List.filter_cons, h]

/-- C7: invariant I1 — every `SubscriptionState`'s connection is a
live key of `num_subscriptions` and the recorded count equals the
number of `SubscriptionState`s referencing it — is preserved (along
with key-uniqueness of the two hash maps) by each completed dispatcher
operation: `push`, a successful `into_subscription`, `close`, and the
connection-close handler. -/
theorem dispatcher_invariant_preserved (s : RawServerSt)
    (hWF : nodupKeys s) (hI : I1 s) :
    (∀ id message out, push s id message = some out →
      nodupKeys out.1 ∧ I1 out.1) ∧
    (∀ request sr samples new_id resp s2,
      into_subscription s request sr samples =
        some (Except.ok (new_id, resp, s2)) →
      nodupKeys s2 ∧ I1 s2) ∧
    (∀ id out, close s id = some out → nodupKeys out.1 ∧ I1 out.1) ∧
    (∀ c, nodupKeys (processClosed s c).1 ∧ I1 (processClosed s c).1) := by
  refine ⟨?_, ?_, ?_, ?_⟩
  · -- push
    intro id message out h
    cases halo : alookup id s.subscriptions with
    | none =>
      simp only [push, halo] at h
      exact Option.noConfusion h
    | some st =>
      simp only [push, halo] at h
      by_cases hp : st.pending
      · rw [if_pos hp] at h
        have he := Option.some.inj h
        subst he
        exact ⟨hWF, hI⟩
      · rw [if_neg hp] at h
        have he := Option.some.inj h
        subst he
        exact ⟨hWF, hI⟩
  · -- into_subscription
    intro request sr samples new_id resp s2 hok
    cases hup : request.user_param with
    | none =>
      simp only [into_subscription, hup] at hok
      exact absurd (Option.some.inj hok) (by simp)
    | some c =>
      simp only [into_subscription, hup] at hok
      by_cases hsr : (sr c).getD false = false
      · rw [if_pos hsr] at hok
        exact absurd (Option.some.inj hok) (by simp)
      · rw [if_neg hsr] at hok
        cases hloop : into_subscription_loop s c request.method samples with
        | none =>
          rw [hloop] at hok
          exact Option.noConfusion hok
        | some pr =>
          rw [hloop] at hok
          obtain ⟨nid, s2x⟩ := pr
          have h3 : s2x = s2 := congrArg (fun e => match e with
            | some (Except.ok (_, _, a)) => a
            | _ => s2x) hok
          subst h3
          obtain ⟨hfresh, hsubs, hnums, _, _⟩ :=
            into_subscription_loop_sound s c request.method samples _ _ hloop
          have hnotin := (alookup_eq_none_iff nid s.subscriptions).mp hfresh
          constructor
          · constructor
            · rw [hsubs, List.map_cons]
              exact List.nodup_cons.mpr ⟨hnotin, hWF.1⟩
            · rw [hnums]
              cases halo : alookup c s.num_subscriptions with
              | some n =>
                simp only [halo]
                rw [keys_aupdate]
                exact hWF.2
              | none =>
                simp only [halo]
                rw [List.map_cons]
                exact List.nodup_cons.mpr
                  ⟨(alookup_eq_none_iff c s.num_subscriptions).mp halo, hWF.2⟩
          · intro cp
            by_cases hcc : c = cp
            · subst hcc
              cases halo : alookup c s.num_subscriptions with
              | some n =>
                have hn : n = subCount s c := by
                  have h1 := (hI c).1
                  rw [halo] at h1
                  simpa using h1
                constructor
                · rw [hnums]
                  simp only [halo]
                  rw [alookup_aupdate_self, halo]
                  show n + 1 = subCount _ c
                  have hplus : subCount s2x c = subCount s c + 1 := by
                    simp only [subCount, hsubs]
                    exact subCount_cons_self _ _ _ _ _
                  rw [hplus, ← hn]
                · rw [hnums]
                  simp only [halo]
                  rw [alookup_aupdate_self, halo]
                  simp
              | none =>
                have h0 : subCount s c = 0 := by
                  have h1 := (hI c).1
                  rw [halo] at h1
                  simpa using h1.symm
                constructor
                · rw [hnums]
                  simp only [halo]
                  rw [alookup_cons, if_pos rfl]
                  show 1 = subCount _ c
                  have hplus : subCount s2x c = subCount s c + 1 := by
                    simp only [subCount, hsubs]
                    exact subCount_cons_self _ _ _ _ _
                  rw [hplus, h0]
                · rw [hnums]
                  simp only [halo]
                  rw [alookup_cons, if_pos rfl]
                  simp
            · have hcpc : cp ≠ c := fun hh => hcc hh.symm
              have hsc : subCount s2x cp = subCount s cp := by
                simp only [subCount, hsubs]
                exact subCount_cons_other _ _ _ _ _ _ hcc
              constructor
              · rw [hnums]
                cases halo : alookup c s.num_subscriptions with
                | some n =>
                  simp only [halo]
                  rw [alookup_aupdate_other _ _ hcpc]
                  rw [show subCount _ cp = subCount s cp from hsc]
                  exact (hI cp).1
                | none =>
                  simp only [halo]
                  rw [alookup_cons, if_neg hcc]
                  rw [show subCount _ cp = subCount s cp from hsc]
                  exact (hI cp).1
              · rw [hnums]
                cases halo : alookup c s.num_subscriptions with
                | some n =>
                  simp only [halo]
                  rw [alookup_aupdate_other _ _ hcpc]
                  exact (hI cp).2
                | none =>
                  simp only [halo]
                  rw [alookup_cons, if_neg hcc]
                  exact (hI cp).2
  · -- close
    intro id out h
    cases halos : alookup id s.subscriptions with
    | none =>
      simp only [close, halos] at h
      exact Option.noConfusion h
    | some st =>
      cases halon : alookup st.raw_id s.num_subscriptions with
      | none =>
        simp only [close, halos, halon] at h
        exact Option.noConfusion h
      | some n =>
        have hn0 : n ≠ 0 := by
          have hx := (hI st.raw_id).2
          rw [halon] at hx
          intro hh
          exact hx (by rw [hh])
        have hneq : n = subCount s st.raw_id := by
          have hx := (hI st.raw_id).1
          rw [halon] at hx
          simpa using hx
        have hrem := fun cp =>
          subCount_remove s.subscriptions hWF.1 id st halos cp
        simp only [close, halos, halon] at h
        by_cases h2 : 2 ≤ n
        · rw [if_pos h2] at h
          have he := Option.some.inj h
          subst he
          constructor
          · exact ⟨(keys_akeyRemove_sublist _ _).nodup hWF.1,
              by rw [keys_aupdate]; exact hWF.2⟩
          · intro cp
            by_cases hcc : st.raw_id = cp
            · subst hcc
              constructor
              · rw [show alookup st.raw_id
                    (aupdate st.raw_id (n - 1) s.num_subscriptions) =
                      some (n - 1) from by
                  rw [alookup_aupdate_self, halon]; rfl]
                show n - 1 = subCount _ st.raw_id
                have hr := hrem st.raw_id
                rw [if_pos rfl] at hr
                simp only [subCount] at hneq ⊢
                rw [hr]
                omega
              · rw [show alookup st.raw_id
                    (aupdate st.raw_id (n - 1) s.num_subscriptions) =
                      some (n - 1) from by
                  rw [alookup_aupdate_self, halon]; rfl]
                intro hh
                have := Option.some.inj hh
                omega
            · have hcpc : cp ≠ st.raw_id := fun hh => hcc hh.symm
              have hr := hrem cp
              rw [if_neg hcc] at hr
              rw [Nat.sub_zero] at hr
              constructor
              · rw [alookup_aupdate_other _ _ hcpc]
                show _ = subCount _ cp
                simp only [subCount] at hr ⊢
                rw [hr]
                have hg := (hI cp).1
                simp only [subCount] at hg
                exact hg
              · rw [alookup_aupdate_other _ _ hcpc]
                exact (hI cp).2
        · rw [if_neg h2] at h
          have hn1 : n = 1 := by omega
          have key : nodupKeys ({ s with
              subscriptions := akeyRemove id s.subscriptions,
              num_subscriptions :=
                akeyRemove st.raw_id s.num_subscriptions }) ∧
            I1 ({ s with
              subscriptions := akeyRemove id s.subscriptions,
              num_subscriptions :=
                akeyRemove st.raw_id s.num_subscriptions }) := by
            constructor
            · exact ⟨(keys_akeyRemove_sublist _ _).nodup hWF.1,
                (keys_akeyRemove_sublist _ _).nodup hWF.2⟩
            · intro cp
              by_cases hcc : st.raw_id = cp
              · subst hcc
                constructor
                · rw [show alookup st.raw_id
                      (akeyRemove st.raw_id s.num_subscriptions) = none from
                    alookup_akeyRemove_self _ _]
                  show 0 = subCount _ st.raw_id
                  have hr := hrem st.raw_id
                  rw [if_pos rfl] at hr
                  simp only [subCount] at hneq ⊢
                  rw [hr]
                  omega
                · rw [show alookup st.raw_id
                      (akeyRemove st.raw_id s.num_subscriptions) = none from
                    alookup_akeyRemove_self _ _]
                  simp
              · have hcpc : cp ≠ st.raw_id := fun hh => hcc hh.symm
                have hr := hrem cp
                rw [if_neg hcc] at hr
                rw [Nat.sub_zero] at hr
                constructor
                · rw [alookup_akeyRemove_other _ hcpc]
                  show _ = subCount _ cp
                  simp only [subCount] at hr ⊢
                  rw [hr]
                  have hg := (hI cp).1
                  simp only [subCount] at hg
                  exact hg
                · rw [alookup_akeyRemove_other _ hcpc]
                  exact (hI cp).2
          by_cases hp : st.pending
          · rw [if_pos hp] at h
            have he := Option.some.inj h
            subst he
            exact key
          · rw [if_neg hp] at h
            have he := Option.some.inj h
            subst he
            exact key
  · -- processClosed
    intro c
    cases halo : alookup c s.num_subscriptions with
    | none =>
      have hred : processClosed s c =
          ({ s with
              batchTags :=
                s.batchTags.map (fun t => if t = some c then none else t) },
            none) := by
        simp only [processClosed, halo]
      rw [hred]
      exact ⟨hWF, fun cp => hI cp⟩
    | some n =>
      have hred : processClosed s c =
          ({ batchTags :=
                s.batchTags.map (fun t => if t = some c then none else t),
             pendingRequests := s.pendingRequests,
             subscriptions :=
               s.subscriptions.filter (fun p =>
                 p.1 ∉ (s.subscriptions.filter
                   (fun q => q.2.raw_id = c)).map (fun q => q.1)),
             num_subscriptions := akeyRemove c s.num_subscriptions },
            some (RawServerEv.SubscriptionsClosed
              ((s.subscriptions.filter (fun q => q.2.raw_id = c)).map
                (fun q => q.1)))) := by
        simp only [processClosed, halo]
      rw [hred]
      have hsubs : s.subscriptions.filter (fun p =>
          p.1 ∉ (s.subscriptions.filter
            (fun q => q.2.raw_id = c)).map (fun q => q.1)) =
          s.subscriptions.filter (fun p => ¬(p.2.raw_id = c)) :=
        filter_not_mem_collected s.subscriptions hWF.1 c
      constructor
      · constructor
        · exact (keys_filter_sublist _ _).nodup hWF.1
        · exact (keys_akeyRemove_sublist _ _).nodup hWF.2
      · intro cp
        constructor
        · show (alookup cp (akeyRemove c s.num_subscriptions)).getD 0 = _
          by_cases hcc : c = cp
          · subst hcc
            rw [alookup_akeyRemove_self]
            show 0 = subCount _ c
            simp only [subCount, hsubs]
            rw [filter_c_of_filter_not_c]
            rfl
          · rw [alookup_akeyRemove_other _ (fun hh => hcc hh.symm)]
            show _ = subCount _ cp
            simp only [subCount, hsubs]
            rw [filter_not_c_count s.subscriptions hcc]
            exact (hI cp).1
        · by_cases hcc : c = cp
          · subst hcc
            show alookup c (akeyRemove c s.num_subscriptions) ≠ some 0
            rw [alookup_akeyRemove_self]
            simp
          · show alookup cp (akeyRemove c s.num_subscriptions) ≠ some 0
            rw [alookup_akeyRemove_other _ (fun hh => hcc hh.symm)]
            exact (hI cp).2

/-- Witness for `dispatcher_invariant_preserved` at a concrete state
(its connection-close component, applied to connection 7). -/
theorem dispatcher_invariant_preserved_witness :
    nodupKeys (RawServerSt.mk [] []
        [([1], SubscriptionState.mk 7 ("m") false)] [(7, 1)]) ∧
    I1 (RawServerSt.mk [] []
        [([1], SubscriptionState.mk 7 ("m") false)] [(7, 1)]) ∧
    (nodupKeys (processClosed (RawServerSt.mk [] []
        [([1], SubscriptionState.mk 7 ("m") false)] [(7, 1)]) 7).1 ∧
      I1 (processClosed (RawServerSt.mk [] []
        [([1], SubscriptionState.mk 7 ("m") false)] [(7, 1)]) 7).1) := by
  have hWF : nodupKeys (RawServerSt.mk [] []
      [([1], SubscriptionState.mk 7 ("m") false)] [(7, 1)]) :=
    ⟨by decide, by decide⟩
  have hI : I1 (RawServerSt.mk [] []
      [([1], SubscriptionState.mk 7 ("m") false)] [(7, 1)]) := by
    intro c
    by_cases h : 7 = c
    · subst h
      exact ⟨by decide, by decide⟩
    · constructor
      · rw [show alookup c ((RawServerSt.mk [] []
            [([1], SubscriptionState.mk 7 ("m") false)]
            [(7, 1)]).num_subscriptions) = none from by
          rw [alookup_cons, if_neg h]
          rfl]
        simp [subCount, h]
      · rw [alookup_cons, if_neg h]
        simp [alookup]
  exact ⟨hWF, hI,
    (dispatcher_invariant_preserved (RawServerSt.mk [] []
      [([1], SubscriptionState.mk 7 ("m") false)] [(7, 1)]) hWF hI).2.2.2 7⟩

lemma b58digitChar_mem : ∀ d, d < 58 → b58digitChar d ∈ b58alphabet := by decide

lemma b58indexOf_digitChar : ∀ d, d < 58 →
    b58alphabet.indexOf (b58digitChar d) = d := by decide

lemma b58digitChar_ne_one : ∀ d, d < 58 → d ≠ 0 →
    ¬(b58digitChar d = '1') := by decide

lemma b58one_mem : ('1' ∈ b58alphabet) := by decide

lemma b58indexOf_one : b58alphabet.indexOf '1' = 0 := by decide

lemma countLeading_decompose {α : Type} (p : α → Bool) (a : α)
    (hpa : ∀ x, p x = true → x = a) :
    ∀ l : List α, List.replicate (countLeading p l) a ++
      l.drop (countLeading p l) = l := by
  intro l
  induction l with
  | nil => rfl
  | cons x t ih =>
    by_cases hx : p x = true
    · rw [show countLeading p (x :: t) = countLeading p t + 1 from by
        simp [countLeading, hx]]
      rw [List.replicate_succ, List.cons_append, List.drop_succ_cons]
      rw [ih]
      rw [hpa x hx]
    · rw [show countLeading p (x :: t) = 0 from by
        simp [countLeading, hx]]
      rfl

lemma drop_countLeading_head {α : Type} (p : α → Bool) :
    ∀ (l : List α) x t, l.drop (countLeading p l) = x :: t →
      p x = false := by
  intro l
  induction l with
  | nil => intro x t h; exact absurd h (by simp)
  | cons y s ih =>
    intro x t h
    by_cases hy : p y = true
    · rw [show countLeading p (y :: s) = countLeading p s + 1 from by
        simp [countLeading, hy], List.drop_succ_cons] at h
      exact ih x t h
    · rw [show countLeading p (y :: s) = 0 from by
        simp [countLeading, hy]] at h
      have hxy : y = x := (List.cons.injEq .. ▸ h).1
      rw [← hxy]
      exact Bool.not_eq_true _ ▸ hy

lemma countLeading_replicate_append {α : Type} (p : α → Bool) (a : α)
    (hpa : p a = true) (z : Nat) (l : List α)
    (hl : countLeading p l = 0) :
    countLeading p (List.replicate z a ++ l) = z := by
  induction z with
  | zero => simpa using hl
  | succ k ih =>
    rw [List.replicate_succ, List.cons_append]
    rw [show countLeading p (a :: (List.replicate k a ++ l)) =
      countLeading p (List.replicate k a ++ l) + 1 from by
        simp [countLeading, hpa]]
    rw [ih]

lemma ofDigits_replicate_zero (b : Nat) :
    ∀ z, (Nat.ofDigits b (List.replicate z 0) : Nat) = 0 := by
  intro z
  induction z with
  | zero => rfl
  | succ k ih =>
    rw [List.replicate_succ, Nat.ofDigits_cons, ih]
    simp

lemma mapM_charVal (l : List Char) (h : ∀ c ∈ l, c ∈ b58alphabet) :
    l.mapM b58charVal = some (l.map (fun c => b58alphabet.indexOf c)) := by
  induction l with
  | nil => rfl
  | cons x t ih =>
    have hx : b58charVal x = some (b58alphabet.indexOf x) := by
      unfold b58charVal
      rw [if_pos (h x (List.mem_cons_self _ _))]
    rw [List.mapM_cons, hx, ih (fun c hc => h c (List.mem_cons_of_mem _ hc))]
    rfl

lemma natToBytes_bytesToNat (l : List Nat) (h256 : ∀ b ∈ l, b < 256)
    (hhead : ∀ x t, l = x :: t → x ≠ 0) :
    natToBytes (bytesToNat l) = l := by
  unfold natToBytes bytesToNat
  rw [Nat.digits_ofDigits 256 (by norm_num) l.reverse
    (fun d hd => h256 d (List.mem_reverse.mp hd)) ?_, List.reverse_reverse]
  intro hne
  have hl_ne : l ≠ [] := by
    intro h0
    rw [h0] at hne
    exact hne rfl
  obtain ⟨x, t, hxt⟩ := List.exists_cons_of_ne_nil hl_ne
  have h2 : l.reverse.getLast? = some x := by
    have h1 := List.head?_reverse l.reverse
    rw [List.reverse_reverse] at h1
    rw [← h1, hxt]
    rfl
  have h3 := List.getLast?_eq_getLast l.reverse hne
  rw [h3] at h2
  rw [Option.some.inj h2]
  exact hhead x t hxt

lemma b58decode_encode (I : List Nat) (hb : ∀ b ∈ I, b < 256) :
    b58decode (b58encode I) = some I := by
  have hdigs : ∀ d ∈ Nat.digits 58 (bytesToNat I), d < 58 :=
    fun d hd => Nat.digits_lt_base (by norm_num) hd
  have hchars : (b58encode I).toList =
      List.replicate (countLeading (fun b => b = 0) I) '1' ++
        (Nat.digits 58 (bytesToNat I)).reverse.map b58digitChar := rfl
  have hmem : ∀ c ∈ List.replicate (countLeading (fun b => b = 0) I) '1' ++
      (Nat.digits 58 (bytesToNat I)).reverse.map b58digitChar,
      c ∈ b58alphabet := by
    intro c hc
    rcases List.mem_append.mp hc with hc1 | hc2
    · rw [List.eq_of_mem_replicate hc1]
      exact b58one_mem
    · obtain ⟨d, hd, rfl⟩ := List.mem_map.mp hc2
      exact b58digitChar_mem d (hdigs d (List.mem_reverse.mp hd))
  have hmap : (List.replicate (countLeading (fun b => b = 0) I) '1' ++
      (Nat.digits 58 (bytesToNat I)).reverse.map b58digitChar).map
        (fun c => b58alphabet.indexOf c) =
      List.replicate (countLeading (fun b => b = 0) I) 0 ++
        (Nat.digits 58 (bytesToNat I)).reverse := by
    rw [List.map_append, List.map_replicate, b58indexOf_one, List.map_map]
    congr 1
    conv_rhs => rw [← List.map_id ((Nat.digits 58 (bytesToNat I)).reverse)]
    apply List.map_congr_left
    intro d hd
    exact b58indexOf_digitChar d (hdigs d (List.mem_reverse.mp hd))
  have hmapM : (List.replicate (countLeading (fun b => b = 0) I) '1' ++
      (Nat.digits 58 (bytesToNat I)).reverse.map b58digitChar).mapM
        b58charVal =
      some (List.replicate (countLeading (fun b => b = 0) I) 0 ++
        (Nat.digits 58 (bytesToNat I)).reverse) := by
    rw [mapM_charVal _ hmem, hmap]
  have hcl0 : countLeading (fun c => c = '1')
      ((Nat.digits 58 (bytesToNat I)).reverse.map b58digitChar) = 0 := by
    cases hrev : (Nat.digits 58 (bytesToNat I)).reverse with
    | nil => rfl
    | cons d rest =>
      have hne : Nat.digits 58 (bytesToNat I) ≠ [] := by
        intro h0
        rw [h0] at hrev
        exact absurd hrev (by simp)
      have hn0 : bytesToNat I ≠ 0 := Nat.digits_ne_nil_iff_ne_zero.mp hne
      have hd_last : (Nat.digits 58 (bytesToNat I)).getLast hne = d := by
        have h2 : (Nat.digits 58 (bytesToNat I)).reverse.head? = some d := by
          rw [hrev]
          rfl
        rw [List.head?_reverse] at h2
        have h3 := List.getLast?_eq_getLast (Nat.digits 58 (bytesToNat I)) hne
        rw [h3] at h2
        exact Option.some.inj h2
      have hdne0 : d ≠ 0 := by
        rw [← hd_last]
        exact Nat.getLast_digit_ne_zero 58 hn0
      have hdlt : d < 58 := hdigs d (List.mem_reverse.mp (by
        rw [hrev]
        exact List.mem_cons_self _ _))
      rw [List.map_cons]
      simp only [countLeading]
      rw [if_neg]
      simp only [decide_eq_true_eq]
      exact b58digitChar_ne_one d hdlt hdne0
  have hcount : countLeading (fun c => c = '1')
      (List.replicate (countLeading (fun b => b = 0) I) '1' ++
        (Nat.digits 58 (bytesToNat I)).reverse.map b58digitChar) =
      countLeading (fun b => b = 0) I :=
    countLeading_replicate_append _ '1' (by decide) _ _ hcl0
  have hval : (Nat.ofDigits 58
      ((List.replicate (countLeading (fun b => b = 0) I) 0 ++
        (Nat.digits 58 (bytesToNat I)).reverse).reverse) : Nat) =
      bytesToNat I := by
    rw [List.reverse_append, List.reverse_reverse, List.reverse_replicate,
      Nat.ofDigits_append, ofDigits_replicate_zero, Nat.ofDigits_digits]
    simp
  have hdec0 := countLeading_decompose (fun b => b = 0) 0
    (fun x hx => of_decide_eq_true hx) I
  have hrest_head : ∀ x t,
      I.drop (countLeading (fun b => b = 0) I) = x :: t → x ≠ 0 := by
    intro x t h hx0
    have hf := drop_countLeading_head (fun b => b = 0) I x t h
    rw [hx0] at hf
    simp at hf
  have hrest_bound : ∀ b ∈ I.drop (countLeading (fun b => b = 0) I),
      b < 256 := fun b hbm => hb b (List.mem_of_mem_drop hbm)
  have hbytes : natToBytes (bytesToNat I) =
      I.drop (countLeading (fun b => b = 0) I) := by
    have hn : bytesToNat I =
        bytesToNat (I.drop (countLeading (fun b => b = 0) I)) := by
      conv_lhs => rw [← hdec0]
      unfold bytesToNat
      rw [List.reverse_append, List.reverse_replicate, Nat.ofDigits_append,
        ofDigits_replicate_zero]
      simp
    rw [hn]
    exact natToBytes_bytesToNat _ hrest_bound hrest_head
  unfold b58decode
  rw [hchars, hmapM]
  show some (List.replicate (countLeading (fun c => c = '1')
      (List.replicate (countLeading (fun b => b = 0) I) '1' ++
        (Nat.digits 58 (bytesToNat I)).reverse.map b58digitChar)) 0 ++
      natToBytes (Nat.ofDigits 58
        ((List.replicate (countLeading (fun b => b = 0) I) 0 ++
          (Nat.digits 58 (bytesToNat I)).reverse).reverse))) = some I
  rw [hcount, hval, hbytes, hdec0]

/-- C9: base58 round-trip — for every 32-byte subscription id `I`,
applying `from_wire_message` to the JSON string obtained by
base58-encoding `I` yields `I`. -/
theorem from_wire_message_b58_roundtrip (I : List Nat)
    (hlen : I.length = 32) (hb : ∀ b ∈ I, b < 256) :
    from_wire_message (JsonV.str (b58encode I)) = some I := by
  unfold from_wire_message
  show (match b58decode (b58encode I) with
    | none => none
    | some decoded => if decoded.length > 32 then none
        else some (List.replicate (32 - decoded.length) 0 ++ decoded)) =
    some I
  rw [b58decode_encode I hb]
  show (if (List.length I > 32) then none
    else some (List.replicate (32 - I.length) 0 ++ I)) = some I
  rw [hlen]
  simp

/-- Witness for `from_wire_message_b58_roundtrip` at the all-zero
32-byte id (whose base58 string is thirty-two `'1'` characters). -/
theorem from_wire_message_b58_roundtrip_witness :
    (List.replicate 32 0).length = 32 ∧
    from_wire_message (JsonV.str (b58encode (List.replicate 32 0))) =
      some (List.replicate 32 0) :=
  ⟨by simp, from_wire_message_b58_roundtrip (List.replicate 32 0) (by simp)
    (by
      intro b hbm
      rw [List.eq_of_mem_replicate hbm]
      norm_num)⟩
